import Mathlib

/-!
Verification of the composable stateful aggregation processes implemented in
`src/tff_tutorials/copy_of_custom_aggregators.py`.

Shallow embedding conventions:
* A federated value placed at CLIENTS is a `List ℚ` (one entry per contributor
  participating in the round); a value placed at SERVER is a plain value.
* TensorFlow `float32` scalars are modelled as exact rationals `ℚ` (the spec
  explicitly leaves floating-point summation order unspecified).
* `tff.federated_sum` is `List.sum`; `tff.federated_broadcast` sends one copy
  of the server value to each contributor; `tff.federated_map` on a
  clients-placed value is `List.map`, and on a server-placed value is plain
  application.
* `tff.federated_zip` of two server values is pairing.
-/

/-- `tff.federated_sum`: reduce the contributor-placed values to their sum at
the coordinator. -/
def federated_sum (v : List ℚ) : ℚ := v.sum

/-- `tff.federated_broadcast`: every one of the `k` contributors of the round
receives an identical copy of the coordinator value. -/
def federated_broadcast (k : Nat) (x : ℚ) : List ℚ := List.replicate k x

/-- The `scale` `tff.tf_computation` of the source (lines 361-363): multiply
the value by the factor (scalar leaf case of `tf.nest.map_structure`). -/
def scale (value factor : ℚ) : ℚ := value * factor

/-- The `unscale` `tff.tf_computation` of the source (lines 365-367): divide
the value by the factor. -/
def unscale (value factor : ℚ) : ℚ := value / factor

/-- The `add_one` `tff.tf_computation` of the source (lines 369-371). -/
def add_one (value : ℚ) : ℚ := value + 1.0

/-- `tff.templates.MeasuredProcessOutput`: the record returned by `next`,
with fields `state`, `result` and `measurements`, all placed at SERVER.
The aggregated result is a scalar here since every claim instantiates the
factories at `tff.TensorType(tf.float32)`. -/
structure MeasuredProcessOutput (σ μ : Type) where
  state : σ
  result : ℚ
  measurements : μ
deriving DecidableEq

/-- `tff.templates.AggregationProcess`: the pair of the computation built by
`initialize_fn` (a server-placed state, here the field `init`) and the
computation built by `next_fn`. -/
structure AggregationProcess (σ μ : Type) where
  init : σ
  next : σ → List ℚ → MeasuredProcessOutput σ μ

/-- The client data used by every demonstration in the source
(lines 176, 260, 422, 441): three contributors with values 1.0, 2.0, 5.0. -/
def client_data : List ℚ := [1.0, 2.0, 5.0]

/-- The process built by the minimal `ExampleTaskFactory` (source lines
153-172): empty state, scale each contributor value by 2.0, sum, divide the
sum by 2.0, empty measurements. -/
def minimalProcess : AggregationProcess Unit Unit where
  init := ()
  next := fun state value =>
    let scaled_value := value.map (fun x => x * 2.0)
    let summed_value := federated_sum scaled_value
    let unscaled_value := summed_value / 2.0
    { state := state, result := unscaled_value, measurements := () }

/-- The process built by the stateful `ExampleTaskFactory` (source lines
228-253): state is a round counter starting at 0.0; `next` increments it,
broadcasts it, scales each contributor value by it, sums, unscales the sum by
it, and reports the pre-unscaling sum as the measurements. -/
def statefulProcess : AggregationProcess ℚ ℚ where
  init := 0.0
  next := fun state value =>
    let new_state := state + 1.0
    let state_at_clients := federated_broadcast value.length new_state
    let scaled_value := (value.zip state_at_clients).map (fun p => p.1 * p.2)
    let summed_value := federated_sum scaled_value
    let unscaled_value := summed_value / new_state
    { state := new_state, result := unscaled_value,
      measurements := summed_value }

/-- A measurements value: either the empty tuple, a scalar, or the
two-entry `collections.OrderedDict` built at source lines 403-406 (the only
dict shape the source ever constructs), holding one named entry per key. -/
inductive MeasVal where
  | empty : MeasVal
  | num (q : ℚ) : MeasVal
  | odict (key1 : String) (val1 : MeasVal) (key2 : String) (val2 : MeasVal) :
      MeasVal
deriving DecidableEq

/-- Lookup of a key in a measurements dict (`output.measurements["k"]`). -/
def measLookup (k : String) : MeasVal → Option MeasVal
  | .odict k1 v1 k2 v2 =>
      if k = k1 then some v1 else if k = k2 then some v2 else none
  | _ => none

/-- The keys of a measurements dict, in order. -/
def measKeys : MeasVal → List String
  | .odict k1 _ k2 _ => [k1, k2]
  | _ => []

/-- Modelled from the spec: `tff.aggregators.SumFactory`, the default inner
factory of the inner-aggregation `ExampleTaskFactory` (source line 377), whose
implementation is not part of this repository. Per the spec, the leaf Sum
factory: `initialize` returns an empty state; `next` performs exactly
`reduce(value, +)` and returns empty measurements. -/
def sumProcess : AggregationProcess Unit MeasVal where
  init := ()
  next := fun _ value =>
    { state := (), result := federated_sum value, measurements := .empty }

/-- The process built by the inner-aggregation `ExampleTaskFactory` (source
lines 373-411) around a given inner process: state is the zip (pair) of the
own counter and the inner state; `next` increments the counter, broadcasts
it, scales each contributor value by it, delegates aggregation of the scaled
values to the inner process, unscales the inner result by the counter, zips
the new own state with the inner output state, and zips the measurements as
an OrderedDict nesting the whole inner measurements under `example_task`. -/
def exampleTaskWrap {σ : Type} (inner : AggregationProcess σ MeasVal) :
    AggregationProcess (ℚ × σ) MeasVal where
  init := (0.0, inner.init)
  next := fun state value =>
    let my_state := state.1
    let inner_state := state.2
    let my_new_state := add_one my_state
    let my_state_at_clients := federated_broadcast value.length my_new_state
    let scaled_value :=
      (value.zip my_state_at_clients).map (fun p => scale p.1 p.2)
    let inner_output := inner.next inner_state scaled_value
    let unscaled_value := unscale inner_output.result my_new_state
    let new_state := (my_new_state, inner_output.state)
    let msmts := MeasVal.odict "scaled_value" (.num inner_output.result)
      "example_task" inner_output.measurements
    { state := new_state, result := unscaled_value, measurements := msmts }

/-- The state type of the inner-aggregation factory nested to depth `n`
over the default Sum: one counter per wrapping layer. -/
def StateN : Nat → Type
  | 0 => Unit
  | n + 1 => ℚ × StateN n

instance instDecEqStateN : (n : Nat) → DecidableEq (StateN n)
  | 0 => inferInstanceAs (DecidableEq Unit)
  | n + 1 =>
      letI := instDecEqStateN n
      inferInstanceAs (DecidableEq (ℚ × StateN n))

/-- The process built by `n` nested inner-aggregation `ExampleTaskFactory`
layers around the default `tff.aggregators.SumFactory` (source line 445 is
`n = 2`: `ExampleTaskFactory(ExampleTaskFactory())`). -/
def processN : (n : Nat) → AggregationProcess (StateN n) MeasVal
  | 0 => sumProcess
  | n + 1 => exampleTaskWrap (processN n)

/-- Thread the state of a process through a sequence of rounds, starting
from a given state and feeding each listed contributor-value list in turn.
This is the caller-side state threading of lines 267-282 and 447-459. -/
def runRounds {σ μ : Type} (p : AggregationProcess σ μ) (s : σ) :
    List (List ℚ) → σ
  | [] => s
  | v :: rest => runRounds p ((p.next s v).state) rest

/-- The output of round `r + 1` of a process that is fed `client_data` every
round, with state threaded from `init` (so `roundOutput p 0` is round 1). -/
def roundOutput {σ μ : Type} (p : AggregationProcess σ μ) (r : Nat) :
    MeasuredProcessOutput σ μ :=
  p.next (runRounds p p.init (List.replicate r client_data)) client_data

/-- All counter components of a nested state equal `q`. The counters are the
only own state each wrapping layer keeps (source lines 385, 393). -/
def countersEqN : (n : Nat) → StateN n → ℚ → Prop
  | 0, _, _ => True
  | n + 1, s, q => s.1 = q ∧ countersEqN n s.2 q

/-- All counter components of a nested state are nonnegative; this holds for
every reachable state and guarantees the unscaling divisors are nonzero. -/
def nonnegN : (n : Nat) → StateN n → Prop
  | 0, _ => True
  | n + 1, s => 0 ≤ s.1 ∧ nonnegN n s.2

/-- The numeric leaves reported anywhere inside a measurements value. -/
def numsOf : MeasVal → List ℚ
  | .empty => []
  | .num q => [q]
  | .odict _ v1 _ v2 => numsOf v1 ++ numsOf v2

/-- The type of a dynamically-typed server-placed state value, as tracked by
the federated type system: the unit type, a float scalar, or a pair. -/
inductive StateTy where
  | unitTy : StateTy
  | numTy : StateTy
  | pairTy (a b : StateTy) : StateTy
deriving DecidableEq

/-- A dynamically-typed server-placed state value. -/
inductive DynState where
  | unitSt : DynState
  | numSt (q : ℚ) : DynState
  | pairSt (a b : DynState) : DynState
deriving DecidableEq

/-- The type of a dynamic state value. -/
def typeOfDyn : DynState → StateTy
  | .unitSt => .unitTy
  | .numSt _ => .numTy
  | .pairSt a b => .pairTy (typeOfDyn a) (typeOfDyn b)

/-- The state type declared by the depth-`n` nested process: the type of the
state returned by its `initialize` (source lines 383-387 zip a float scalar
with the inner state). -/
def stateTyN : Nat → StateTy
  | 0 => .unitTy
  | n + 1 => .pairTy .numTy (stateTyN n)

/-- Decode a dynamic state value into a depth-`n` nested state; fails when
the value does not have the declared state type. -/
def decodeStateN : (n : Nat) → DynState → Option (StateN n)
  | 0, .unitSt => some ()
  | n + 1, .pairSt (.numSt q) rest =>
      (decodeStateN n rest).map (fun s => (q, s))
  | 0, _ => none
  | _ + 1, _ => none

/-- Encode a depth-`n` nested state as a dynamic state value. -/
def encodeStateN : (n : Nat) → StateN n → DynState
  | 0, _ => .unitSt
  | n + 1, s => .pairSt (.numSt s.1) (encodeStateN n s.2)

/-- Modelled from the spec: the runtime type check that the federated
computation machinery performs on every call to `next` against the declared
input types (the source only declares them, lines 389-390, and the framework
code enforcing them is not part of this repository). Per the spec, calling
`next` with a state whose type differs from the type `initialize` returned
fails with `TypeContractViolation`; the model is a pure function, so a
failing call returns only the error and produces no output and no state. -/
def checkedNextN (n : Nat) (s : DynState) (v : List ℚ) :
    Except String (DynState × ℚ × MeasVal) :=
  match decodeStateN n s with
  | none => .error "TypeContractViolation"
  | some st =>
      let o := (processN n).next st v
      .ok (encodeStateN n o.state, o.result, o.measurements)

/- ### Helper lemmas -/

/-- Broadcasting a factor and mapping a binary function over the zip equals
mapping the partially-applied function over the contributor values. -/
theorem zip_broadcast_map (v : List ℚ) (c : ℚ) (f : ℚ → ℚ → ℚ) :
    (v.zip (federated_broadcast v.length c)).map (fun p => f p.1 p.2)
      = v.map (fun x => f x c) := by
  induction v with
  | nil => rfl
  | cons a t ih =>
      simp only [federated_broadcast, List.length_cons, List.replicate_succ,
        List.zip_cons_cons, List.map_cons, List.map] at *
      exact congrArg _ ih

/-- Summing contributor values scaled by a common factor equals the scaled
sum. -/
theorem sum_map_mul (v : List ℚ) (c : ℚ) :
    (v.map (fun x => x * c)).sum = v.sum * c := by
  induction v with
  | nil => simp
  | cons a t ih => simp [ih, add_mul]

/-- Evaluation rule for one `next` call of the wrapping factory. -/
theorem exampleTaskWrap_next {σ : Type} (inner : AggregationProcess σ MeasVal)
    (s : ℚ × σ) (v : List ℚ) :
    (exampleTaskWrap inner).next s v =
      { state := (s.1 + 1.0,
          (inner.next s.2 (v.map (fun x => x * (s.1 + 1.0)))).state),
        result := (inner.next s.2 (v.map (fun x => x * (s.1 + 1.0)))).result
          / (s.1 + 1.0),
        measurements := MeasVal.odict
          "scaled_value"
          (.num (inner.next s.2 (v.map (fun x => x * (s.1 + 1.0)))).result)
          "example_task"
          (inner.next s.2 (v.map (fun x => x * (s.1 + 1.0)))).measurements } := by
  show MeasuredProcessOutput.mk _ _ _ = _
  rw [zip_broadcast_map v (add_one s.1) scale]
  rfl

/-- Evaluation rule for one `next` call of the stateful process. -/
theorem statefulProcess_next (s : ℚ) (v : List ℚ) :
    statefulProcess.next s v =
      { state := s + 1.0,
        result := (v.map (fun x => x * (s + 1.0))).sum / (s + 1.0),
        measurements := (v.map (fun x => x * (s + 1.0))).sum } := by
  show MeasuredProcessOutput.mk _ _ _ = _
  rw [zip_broadcast_map v (s + 1.0) (fun a b => a * b)]
  rfl

/-- Initialization lemma for the stateful process. -/
theorem statefulProcess_init : statefulProcess.init = 0.0 := rfl

/-- Summing after removing the entry at index `i` removes exactly that
entry from the sum. -/
theorem sum_eraseIdx :
    ∀ (v : List ℚ) (i : Nat) (h : i < v.length),
      (v.eraseIdx i).sum = v.sum - v.get ⟨i, h⟩
  | _ :: _, 0, _ => by
      simp [List.eraseIdx]
  | a :: t, i + 1, h => by
      have ih := sum_eraseIdx t i (by simpa using h)
      simp only [List.eraseIdx, List.sum_cons, ih, List.get_eq_getElem,
        List.getElem_cons_succ]
      ring
  | [], i, h => by simp at h

/-- The result of one `next` call of the depth-`n` nested process equals the
sum of the contributor values whenever every counter in the state is
nonnegative: the scaling each layer introduces is exactly undone by the same
layer. -/
theorem nextN_result_eq_sum :
    ∀ (n : Nat) (s : StateN n) (v : List ℚ), nonnegN n s →
      ((processN n).next s v).result = v.sum
  | 0, _, _, _ => rfl
  | n + 1, s, v, h => by
      have h1 : (0 : ℚ) ≤ s.1 := h.1
      have hne : s.1 + 1.0 ≠ 0 := by
        have : (0 : ℚ) < s.1 + 1.0 := by norm_num; linarith
        exact ne_of_gt this
      have ih := nextN_result_eq_sum n s.2 (v.map (fun x => x * (s.1 + 1.0))) h.2
      simp only [processN, exampleTaskWrap_next, ih, sum_map_mul]
      exact mul_div_cancel_right₀ v.sum hne

/-- One `next` call of the depth-`n` nested process is invariant under
permutation of the contributor values. -/
theorem nextN_perm :
    ∀ (n : Nat) (s : StateN n) (v w : List ℚ), v.Perm w →
      (processN n).next s v = (processN n).next s w
  | 0, _, v, w, hp => by
      show sumProcess.next _ v = sumProcess.next _ w
      simp only [sumProcess, federated_sum]
      rw [hp.sum_eq]
  | n + 1, s, v, w, hp => by
      have ih := nextN_perm n s.2 (v.map (fun x => x * (s.1 + 1.0)))
        (w.map (fun x => x * (s.1 + 1.0))) (hp.map (fun x => x * (s.1 + 1.0)))
      simp only [processN, exampleTaskWrap_next, ih]

/-- All counters of the initial state of the depth-`n` nested process are
zero. -/
theorem countersEqN_init : ∀ (n : Nat), countersEqN n (processN n).init 0.0
  | 0 => trivial
  | n + 1 => ⟨rfl, countersEqN_init n⟩

/-- One `next` call increments every counter of the state by one. -/
theorem countersEqN_next :
    ∀ (n : Nat) (s : StateN n) (v : List ℚ) (q : ℚ), countersEqN n s q →
      countersEqN n ((processN n).next s v).state (q + 1.0)
  | 0, _, _, _, _ => trivial
  | n + 1, s, v, q, h => by
      have ihn := countersEqN_next n s.2 (v.map (fun x => x * (s.1 + 1.0))) q h.2
      simp only [processN, exampleTaskWrap_next]
      exact ⟨by rw [h.1], ihn⟩

/-- Threading the state through `vss` rounds adds the number of rounds to
every counter. -/
theorem countersEqN_run :
    ∀ (n : Nat) (vss : List (List ℚ)) (s : StateN n) (q : ℚ),
      countersEqN n s q →
      countersEqN n (runRounds (processN n) s vss) (q + vss.length)
  | _, [], _, _, h => by simpa using h
  | n, v :: rest, s, q, h => by
      have h1 := countersEqN_next n s v q h
      have h2 := countersEqN_run n rest _ _ h1
      simp only [runRounds]
      rw [show q + (((v :: rest).length : Nat) : ℚ)
            = (q + 1.0) + (rest.length : ℚ) by
          push_cast [List.length_cons]; ring]
      exact h2

/-- States with all counters equal to a nonnegative value have nonnegative
counters. -/
theorem countersEqN_nonneg :
    ∀ (n : Nat) (s : StateN n) (q : ℚ), countersEqN n s q → 0 ≤ q →
      nonnegN n s
  | 0, _, _, _, _ => trivial
  | n + 1, s, q, h, hq =>
      ⟨by rw [h.1]; exact hq, countersEqN_nonneg n s.2 q h.2 hq⟩

/-- Threading the stateful process adds the number of rounds to the
counter. -/
theorem statefulProcess_run :
    ∀ (vss : List (List ℚ)) (s : ℚ),
      runRounds statefulProcess s vss = s + vss.length
  | [], s => by simp [runRounds]
  | v :: rest, s => by
      simp only [runRounds, statefulProcess_next]
      rw [statefulProcess_run rest (s + 1.0)]
      push_cast [List.length_cons]
      ring

/-- A dynamic state value that decodes successfully has the declared state
type. -/
theorem decodeStateN_typeOf :
    ∀ (n : Nat) (s : DynState) (st : StateN n),
      decodeStateN n s = some st → typeOfDyn s = stateTyN n
  | 0, .unitSt, _, _ => rfl
  | 0, .numSt _, _, h => by simp [decodeStateN] at h
  | 0, .pairSt _ _, _, h => by simp [decodeStateN] at h
  | _ + 1, .unitSt, _, h => by simp [decodeStateN] at h
  | _ + 1, .numSt _, _, h => by simp [decodeStateN] at h
  | _ + 1, .pairSt .unitSt _, _, h => by simp [decodeStateN] at h
  | _ + 1, .pairSt (.pairSt _ _) _, _, h => by simp [decodeStateN] at h
  | n + 1, .pairSt (.numSt _) rest, st, h => by
      simp only [decodeStateN, Option.map_eq_some'] at h
      obtain ⟨s', hs', -⟩ := h
      simp [typeOfDyn, stateTyN, decodeStateN_typeOf n rest s' hs']

/-- Initialization lemma for the wrapping factory: the composed state is the
zip (pair) of the own zero counter with the inner initial state. -/
theorem exampleTaskWrap_init {σ : Type} (inner : AggregationProcess σ MeasVal) :
    (exampleTaskWrap inner).init = (0.0, inner.init) := rfl

/-- Initialization lemma for the Sum process. -/
theorem sumProcess_init : sumProcess.init = () := rfl

/-- Evaluation rule for one `next` call of the Sum process. -/
theorem sumProcess_next (s : Unit) (v : List ℚ) :
    sumProcess.next s v
      = { state := (), result := v.sum, measurements := .empty } := rfl

/-- Looking up `scaled_value` in the composed measurements dict returns its
first entry. -/
theorem measLookup_scaled (v1 v2 : MeasVal) :
    measLookup "scaled_value" (.odict "scaled_value" v1 "example_task" v2)
      = some v1 := by
  simp [measLookup]

/-- Looking up `example_task` in the composed measurements dict returns its
second entry. -/
theorem measLookup_example (v1 v2 : MeasVal) :
    measLookup "example_task" (.odict "scaled_value" v1 "example_task" v2)
      = some v2 := by
  simp [measLookup]

/- ### Claims -/

/-- C1: For the composition of two counter-wrapping factories over the
default Sum (`ExampleTaskFactory(ExampleTaskFactory())`, i.e. `processN 2`),
with contributor values `(1.0, 2.0, 5.0)` every round: the inner-reported
measurement (the path `example_task` then `scaled_value`) equals `8.0` in
round 1 and `32.0` in round 2, while the outermost `result` returned by
`next` equals `8.0` in every round at every depth of this nesting
(`roundOutput p r` is round `r + 1`). -/
theorem composedCounters_innerMeasurement_and_result :
    ((measLookup "example_task" (roundOutput (processN 2) 0).measurements).bind
        (measLookup "scaled_value") = some (.num 8.0))
    ∧ ((measLookup "example_task" (roundOutput (processN 2) 1).measurements).bind
        (measLookup "scaled_value") = some (.num 32.0))
    ∧ ∀ (n r : Nat), (roundOutput (processN n) r).result = 8.0 := by
  refine ⟨?_, ?_, ?_⟩
  · simp only [roundOutput, runRounds, List.replicate, processN,
      exampleTaskWrap_init, exampleTaskWrap_next, sumProcess_init,
      sumProcess_next, client_data, List.map_cons, List.map_nil,
      List.sum_cons, List.sum_nil, measLookup_scaled, measLookup_example,
      Option.some_bind]
    norm_num
  · simp only [roundOutput, runRounds, List.replicate, processN,
      exampleTaskWrap_init, exampleTaskWrap_next, sumProcess_init,
      sumProcess_next, client_data, List.map_cons, List.map_nil,
      List.sum_cons, List.sum_nil, measLookup_scaled, measLookup_example,
      Option.some_bind]
    norm_num
  · intro n r
    have hc := countersEqN_run n (List.replicate r client_data)
      (processN n).init 0.0 (countersEqN_init n)
    have hnn := countersEqN_nonneg n _ _ hc (by positivity)
    have hr := nextN_result_eq_sum n _ client_data hnn
    rw [roundOutput, hr]
    norm_num [client_data]

/-- C2: For the stateful counter process, with contributor values
`(1.0, 2.0, 5.0)` in every round: round 1 returns result `8.0` and
measurements `8.0`, round 2 returns result `8.0` and measurements `16.0`,
round 3 returns result `8.0` and measurements `24.0`. -/
theorem statefulCounter_three_rounds :
    (roundOutput statefulProcess 0).result = 8.0
    ∧ (roundOutput statefulProcess 0).measurements = 8.0
    ∧ (roundOutput statefulProcess 1).result = 8.0
    ∧ (roundOutput statefulProcess 1).measurements = 16.0
    ∧ (roundOutput statefulProcess 2).result = 8.0
    ∧ (roundOutput statefulProcess 2).measurements = 24.0 := by
  norm_num [roundOutput, runRounds, List.replicate, statefulProcess_next,
    statefulProcess_init, client_data]

/-- C3: For the minimal scale/sum/unscale process, a single call to `next`
with contributor values `(1.0, 2.0, 5.0)` returns result `8.0`. -/
theorem minimal_round_trip :
    (minimalProcess.next () client_data).result = 8.0 := by
  norm_num [minimalProcess, federated_sum, client_data]

/-- C4: For every process built by any of the factories (minimal, stateful,
and the inner-aggregation composition at every depth), for a fixed input
state, the output of `next` is invariant under every permutation of the
contributor value sequence. -/
theorem next_permutation_invariant (v w : List ℚ) (hp : v.Perm w) :
    minimalProcess.next () v = minimalProcess.next () w
    ∧ (∀ s : ℚ, statefulProcess.next s v = statefulProcess.next s w)
    ∧ ∀ (n : Nat) (s : StateN n),
        (processN n).next s v = (processN n).next s w := by
  refine ⟨?_, ?_, ?_⟩
  · show MeasuredProcessOutput.mk _ _ _ = MeasuredProcessOutput.mk _ _ _
    simp only [federated_sum]
    rw [(hp.map (fun x => x * 2.0)).sum_eq]
  · intro s
    simp only [statefulProcess_next]
    rw [(hp.map (fun x => x * (s + 1.0))).sum_eq]
  · intro n s
    exact nextN_perm n s v w hp

/-- Witness for C4 at the concrete contributor lists `[1.0, 2.0, 5.0]` and
`[2.0, 1.0, 5.0]`. -/
theorem next_permutation_invariant_witness :
    ([1.0, 2.0, 5.0] : List ℚ).Perm [2.0, 1.0, 5.0]
    ∧ minimalProcess.next () [1.0, 2.0, 5.0]
        = minimalProcess.next () [2.0, 1.0, 5.0] :=
  ⟨List.Perm.swap 2.0 1.0 [5.0],
   (next_permutation_invariant [1.0, 2.0, 5.0] [2.0, 1.0, 5.0]
      (List.Perm.swap 2.0 1.0 [5.0])).1⟩

/-- C5: For every round of a process built by the wrapping factory (around
any inner process; the nested `processN` layers are exactly such wraps), the
measurements returned by `next` are a nested mapping: the layer contributes
its own named entry `scaled_value` and nests the entire inner measurements
value under the single key `example_task`; the keys are distinct (never a
flat mapping with colliding keys), and each contribution is retrievable by
its own path. -/
theorem measurements_namespaced (σ : Type)
    (inner : AggregationProcess σ MeasVal) (s : ℚ × σ) (v : List ℚ) :
    ((exampleTaskWrap inner).next s v).measurements
        = .odict "scaled_value"
            (.num (inner.next s.2 (v.map (fun x => x * (s.1 + 1.0)))).result)
            "example_task"
            (inner.next s.2 (v.map (fun x => x * (s.1 + 1.0)))).measurements
    ∧ measKeys ((exampleTaskWrap inner).next s v).measurements
        = ["scaled_value", "example_task"]
    ∧ (measKeys ((exampleTaskWrap inner).next s v).measurements).Nodup
    ∧ measLookup "example_task" ((exampleTaskWrap inner).next s v).measurements
        = some (inner.next s.2 (v.map (fun x => x * (s.1 + 1.0)))).measurements
    ∧ ∀ (n : Nat), processN (n + 1) = exampleTaskWrap (processN n) := by
  refine ⟨?_, ?_, ?_, ?_, fun n => rfl⟩
  · simp [exampleTaskWrap_next]
  · simp [exampleTaskWrap_next, measKeys]
  · simp [exampleTaskWrap_next, measKeys]
  · simp [exampleTaskWrap_next, measLookup_example]

/-- C6: For the wrapping factory around any inner process, the state
returned by `initialize` is the zip (pair) of the own initial state `0.0`
with the inner initial state, and the state returned by every call to
`next` is the zip of the own updated counter with the state field of the
inner output; `processN (n + 1)` is exactly such a wrap at every depth. -/
theorem state_zip_pairing :
    (∀ (σ : Type) (inner : AggregationProcess σ MeasVal),
      (exampleTaskWrap inner).init = (0.0, inner.init)
      ∧ ∀ (s : ℚ × σ) (v : List ℚ),
          ((exampleTaskWrap inner).next s v).state
            = (s.1 + 1.0,
               (inner.next s.2 (v.map (fun x => x * (s.1 + 1.0)))).state))
    ∧ ∀ (n : Nat), processN (n + 1) = exampleTaskWrap (processN n) := by
  refine ⟨fun σ inner => ⟨rfl, fun s v => ?_⟩, fun n => rfl⟩
  simp [exampleTaskWrap_next]

/-- C7: Calling `next` with a state whose type differs from the type of the
state returned by `initialize` fails with `TypeContractViolation`; the model
is pure, so the failing call returns only the error value and produces no
output and no state change. -/
theorem next_wrong_state_type_fails (n : Nat) (s : DynState) (v : List ℚ)
    (h : typeOfDyn s ≠ stateTyN n) :
    checkedNextN n s v = .error "TypeContractViolation" := by
  unfold checkedNextN
  cases hd : decodeStateN n s with
  | none => rfl
  | some st => exact absurd (decodeStateN_typeOf n s st hd) h

/-- Witness for C7: a scalar state where the depth-0 process expects the
empty state. -/
theorem next_wrong_state_type_fails_witness :
    typeOfDyn (.numSt 1.0) ≠ stateTyN 0
    ∧ checkedNextN 0 (.numSt 1.0) [] = .error "TypeContractViolation" :=
  ⟨by decide, next_wrong_state_type_fails 0 (.numSt 1.0) [] (by decide)⟩

/-- C8: For the Sum-based scale/sum/unscale process (which is stateless, so
this holds in every round), omitting the contributor at any index `i`
succeeds (the embedding is a total function) and returns a result that
differs from the full-participation result by exactly that contributor
value. -/
theorem omit_contributor_changes_result_by_value
    (v : List ℚ) (i : Nat) (h : i < v.length) :
    (minimalProcess.next () (v.eraseIdx i)).result
      = (minimalProcess.next () v).result - v.get ⟨i, h⟩ := by
  have hm : ∀ (w : List ℚ), (minimalProcess.next () w).result = w.sum := by
    intro w
    show (w.map (fun x => x * 2.0)).sum / 2.0 = w.sum
    rw [sum_map_mul]
    norm_num
  rw [hm, hm, sum_eraseIdx v i h]

/-- Witness for C8 at the concrete contributor list `[1.0, 2.0, 5.0]` with
the first contributor omitted. -/
theorem omit_contributor_changes_result_by_value_witness :
    (0 < ([1.0, 2.0, 5.0] : List ℚ).length)
    ∧ (minimalProcess.next () (([1.0, 2.0, 5.0] : List ℚ).eraseIdx 0)).result
        = (minimalProcess.next () [1.0, 2.0, 5.0]).result
          - ([1.0, 2.0, 5.0] : List ℚ).get ⟨0, by norm_num⟩ :=
  ⟨by norm_num,
   omit_contributor_changes_result_by_value [1.0, 2.0, 5.0] 0 (by norm_num)⟩

/-- C9: In the stateful and the inner-aggregation versions, the divisor of
the unscale step is the counter incremented by `1.0` before use; after any
sequence of `next` calls that threads each returned state into the next
call, the stateful counter equals the number of rounds, every counter of
the depth-`n` nested state equals the number of rounds, and the divisor
(counter plus one) is nonzero, so the division never divides by zero. -/
theorem unscale_divisor_never_zero (vss : List (List ℚ)) :
    runRounds statefulProcess statefulProcess.init vss = (vss.length : ℚ)
    ∧ ((vss.length : ℚ) + 1.0 ≠ 0)
    ∧ ∀ (n : Nat),
        countersEqN n (runRounds (processN n) (processN n).init vss)
          (vss.length : ℚ) := by
  refine ⟨?_, ?_, ?_⟩
  · rw [statefulProcess_run vss statefulProcess.init, statefulProcess_init]
    norm_num
  · positivity
  · intro n
    have hc := countersEqN_run n vss (processN n).init 0.0 (countersEqN_init n)
    rw [show (0.0 : ℚ) + (vss.length : ℚ) = (vss.length : ℚ) by norm_num] at hc
    exact hc

/-- C10: In the inner-aggregation version, the measurements entry named
`scaled_value` equals the inner process result field (the aggregate after
the inner layer, before the outer unscaling), not the client-side scaled
values: concretely, in round 2 of the depth-1 process the entry is `16.0`
while the client-side scaled values are `[2.0, 4.0, 10.0]`, and the only
numeric leaf reported in the measurements is `16.0`, which is none of
them. -/
theorem scaled_value_entry_is_inner_result :
    (∀ (σ : Type) (inner : AggregationProcess σ MeasVal)
        (s : ℚ × σ) (v : List ℚ),
      measLookup "scaled_value" ((exampleTaskWrap inner).next s v).measurements
        = some (.num (inner.next s.2 (v.map (fun x => x * (s.1 + 1.0)))).result))
    ∧ measLookup "scaled_value" ((roundOutput (processN 1) 1).measurements)
        = some (.num 16.0)
    ∧ (client_data.map (fun x => x * 2.0) = [2.0, 4.0, 10.0])
    ∧ numsOf ((roundOutput (processN 1) 1).measurements) = [16.0]
    ∧ ((16.0 : ℚ) ∉ ([2.0, 4.0, 10.0] : List ℚ)) := by
  refine ⟨?_, ?_, ?_, ?_, ?_⟩
  · intro σ inner s v
    simp [exampleTaskWrap_next, measLookup_scaled]
  · simp only [roundOutput, runRounds, List.replicate, processN,
      exampleTaskWrap_init, exampleTaskWrap_next, sumProcess_init,
      sumProcess_next, client_data, List.map_cons, List.map_nil,
      List.sum_cons, List.sum_nil, measLookup_scaled, measLookup_example]
    norm_num
  · norm_num [client_data]
  · have hm : (roundOutput (processN 1) 1).measurements
        = MeasVal.odict "scaled_value" (.num 16.0) "example_task" .empty := by
      simp only [roundOutput, runRounds, List.replicate, processN,
        exampleTaskWrap_init, exampleTaskWrap_next, sumProcess_init,
        sumProcess_next, client_data, List.map_cons, List.map_nil,
        List.sum_cons, List.sum_nil]
      norm_num
    rw [hm]
    rfl
  · norm_num
